import Mathlib

/-!
Verification development for the OutSystems module republisher.

The repository consists of two Puppeteer scripts sharing one scheduling core:

* `src/outsystems-warning-scanner.js` — logs into Service Center, paginates the
  eSpaces list, accumulates modules flagged with a warning icon into a `Map`
  keyed on the module URL, sorts them by a fixed layer hierarchy and writes
  `sorted-modules.json`.
* the republisher script (`src/unnamed/part_001`) — loads `sorted-modules.json`,
  optionally filters by requested layers, pushes the URLs into a single global
  `taskQueue` with a shared `taskIndex` cursor, and runs one browser per
  subdomain with `TABS_PER_SUBDOMAIN` tabs, each tab looping on `getNextTask`.

This file shallowly embeds the pure parts of that code.  JavaScript strings are
modelled as Lean `String`s, with the handful of string operations the scripts
use (`split`, `trim`, `toUpperCase`, `toLowerCase`, `includes`, `replace` of the
`^https:\/\/[^.]+` pattern) re-implemented over `List Char` so that every
definition evaluates inside the kernel.  `String.prototype.localeCompare` is
modelled as case-sensitive code-point lexicographic comparison (its sign is all
the sort comparator consumes).  The numeric sort ranks (`indexOf` result or
`Infinity`) are modelled as `Option Nat` with `none` playing `Infinity`: only
the comparison results of the ranks are observable in the source.  Asynchronous
page interactions are modelled by boolean-valued oracles (one answer per URL or
per attempt), and the event-loop interleaving of tabs by an explicit schedule of
claim steps against the shared queue state.
-/

namespace Republisher

/-! ### JavaScript string primitives over `List Char` -/

/-- Model of `String.prototype.split(sep)` for a one-character separator:
splits at every occurrence; the empty string yields `[[]]`, and adjacent
separators yield empty segments, as in JavaScript. -/
def splitOnChar (sep : Char) : List Char → List (List Char)
  | [] => [[]]
  | c :: cs =>
    if c = sep then [] :: splitOnChar sep cs
    else
      match splitOnChar sep cs with
      | [] => [[c]]
      | t :: ts => (c :: t) :: ts

/-- Model of `String.prototype.trim()`: drop whitespace from both ends. -/
def trimChars (l : List Char) : List Char :=
  ((l.dropWhile Char.isWhitespace).reverse.dropWhile Char.isWhitespace).reverse

/-- Model of `String.prototype.toUpperCase()` (the layer codes are ASCII). -/
def upperChars (l : List Char) : List Char :=
  l.map Char.toUpper

/-- Model of `String.prototype.toLowerCase()` (module names are ASCII). -/
def lowerChars (l : List Char) : List Char :=
  l.map Char.toLower

/-- Model of `String.prototype.includes(pat)`: `pat` occurs as a contiguous
substring. -/
def containsChars (pat : List Char) : List Char → Bool
  | [] => pat.isEmpty
  | c :: cs => pat.isPrefixOf (c :: cs) || containsChars pat cs

/-- Code-point lexicographic comparison of character lists; the model of the
sign of `String.prototype.localeCompare` used by the sort comparator. -/
def cmpCharList : List Char → List Char → Ordering
  | [], [] => .eq
  | [], _ :: _ => .lt
  | _ :: _, [] => .gt
  | a :: as, b :: bs =>
    if a.toNat < b.toNat then .lt
    else if b.toNat < a.toNat then .gt
    else cmpCharList as bs

/-! ### Shared configuration (identical in both scripts) -/

/-- PROCESSING_HIERARCHY from both scripts:
`["IS", "LS", "TH", "CS", "BL", "SBL", "OS", "API", "AP", "CW", "UI"]`. -/
def PROCESSING_HIERARCHY : List String :=
  ["IS", "LS", "TH", "CS", "BL", "SBL", "OS", "API", "AP", "CW", "UI"]

/-- RETRY_LIMIT from the republisher script. -/
def RETRY_LIMIT : Nat := 3

/-- BASE_DOMAIN from the republisher script. -/
def BASE_DOMAIN : String := "wodify.com"

/-- ModuleRecord: one element of the persisted `sorted-modules.json` array,
`{url, name, suffix}` as written by the scanner. -/
structure Module where
  url : String
  name : String
  suffix : String
deriving DecidableEq, Repr

/-! ### Command-line layer parsing (`parseRequestedLayers`, both scripts) -/

/-- Lookup in the `layerMap` object built by `parseRequestedLayers`: keys are
`layer.toUpperCase()` for each hierarchy entry, values the original entries
(all hierarchy entries are distinct, so last-write-wins never fires). -/
def layerMapLookup (key : List Char) : Option String :=
  (PROCESSING_HIERARCHY.map (fun h => (upperChars h.data, h))).lookup key

/-- Result of `parseRequestedLayers`: the returned value (`null` modelled as
`none`) together with whether the `console.warn` branch was taken. -/
structure ParseResult where
  layers : Option (List String)
  warned : Bool
deriving DecidableEq, Repr

/-- parseRequestedLayers(args) — identical in the scanner and the republisher:
no arguments means no filtering; otherwise the first argument is split on
commas, each token trimmed and looked up case-insensitively in the hierarchy;
if no token is valid, warn and fall back to no filtering. -/
def parseRequestedLayers (args : List String) : ParseResult :=
  match args with
  | [] => ⟨none, false⟩
  | layersArg :: _ =>
    let layers :=
      ((splitOnChar ',' layersArg.data).map trimChars).filterMap
        (fun l => layerMapLookup (upperChars l))
    if layers = [] then ⟨none, true⟩ else ⟨some layers, false⟩

/-- filterModulesByRequestedLayers(modules, requestedLayers) — identical in
both scripts: `null` means no filtering, otherwise keep the modules whose
`suffix` is in the requested list. -/
def filterModulesByRequestedLayers
    (modules : List Module) (requestedLayers : Option (List String)) :
    List Module :=
  match requestedLayers with
  | none => modules
  | some layers => modules.filter (fun m => layers.contains m.suffix)

/-! ### Scanner: row accumulation (`scrapeModulesWithWarnings`) -/

/-- One table row as observed by the scraping loop: whether it carries the
`Icon_Warning.svg` image, and the extracted link and name. -/
structure Row where
  hasWarning : Bool
  url : String
  name : String
deriving DecidableEq, Repr

/-- The `moduleName.toLowerCase().includes("sandbox")` exclusion test. -/
def sandboxName (name : String) : Bool :=
  containsChars "sandbox".data (lowerChars name.data)

/-- suffix extraction: `moduleName.split("_").pop()`, defaulted to `"UI"` when
the result is not in the hierarchy. -/
def suffixOf (name : String) : String :=
  let s : String := ⟨(splitOnChar '_' name.data).getLastD []⟩
  if PROCESSING_HIERARCHY.contains s then s else "UI"

/-- The record `{url: moduleLink, name: moduleName, suffix}` built for a row. -/
def moduleOfRow (r : Row) : Module :=
  ⟨r.url, r.name, suffixOf r.name⟩

/-- Whether a row makes it into the `modules` map: it must carry the warning
icon and survive the sandbox-name exclusion. -/
def rowCaptured (r : Row) : Bool :=
  r.hasWarning && !sandboxName r.name

/-- One iteration of the scraping loop body for one row: rows without the
warning icon are ignored; sandbox-named modules are skipped; otherwise the
record is added unless the `modules` map already holds the URL
(`modules.has(moduleLink)`).  The JavaScript `Map` is modelled as a list in
insertion order, which is exactly what `Array.from(modules.values())`
returns. -/
def scrapeStep (acc : List Module) (r : Row) : List Module :=
  if r.hasWarning then
    if sandboxName r.name then acc
    else if acc.any (fun m => m.url == r.url) then acc
    else acc ++ [moduleOfRow r]
  else acc

/-- Accumulation over a page-order list of rows (no mid-scan exception). -/
def scrapeRows (rows : List Row) : List Module :=
  rows.foldl scrapeStep []

/-- One observable event of a scan run: either the loop processes a row, or an
exception is raised inside the accumulation loop (pagination wait timeout,
row-extraction failure outside the per-row try, ...). -/
inductive ScanEvent where
  | row (r : Row)
  | failure
deriving DecidableEq, Repr

/-- scrapeModulesWithWarnings, run over a list of scan events.  On `failure`
the function throws: the `modules` map accumulated so far is local to the
function and is carried in the `error` payload only so that theorems can refer
to what was lost — the JavaScript caller never sees it. -/
def scrapeModulesRun : List Module → List ScanEvent → Except (List Module) (List Module)
  | acc, [] => .ok acc
  | acc, .row r :: es => scrapeModulesRun (scrapeStep acc r) es
  | acc, .failure :: _ => .error acc

/-- scrapeModulesWithWarnings from an empty map. -/
def scrapeModulesWithWarnings (events : List ScanEvent) :
    Except (List Module) (List Module) :=
  scrapeModulesRun [] events

/-! ### Scanner: `sortModulesByHierarchy`

The comparator computes `PROCESSING_HIERARCHY.indexOf(suffix)` with `-1`
replaced by `Infinity`; `Infinity` is modelled as `none`.  The source contains
a dead branch `if (rankA === Infinity && a.suffix === "UI") rankA = Infinity+1`
— unreachable because `"UI"` is in the hierarchy, so its rank is `10`, never
`Infinity` (were it reached it would throw, `rankA` being `const`); the model
keeps the guard with `Infinity + 1 = Infinity`.  When the ranks differ the
source returns `rankA - rankB`, whose sign is the rank comparison (the
equal-rank case, including `Infinity - Infinity`, is already taken by the
`localeCompare` branch). -/

/-- Rank per the fixed hierarchy: `indexOf` result, `none` for `Infinity`. -/
def moduleRank (m : Module) : Option Nat :=
  PROCESSING_HIERARCHY.indexOf? m.suffix

/-- Rank after the dead `Infinity + 1` adjustment (`Infinity + 1 = Infinity`). -/
def moduleSortRank (m : Module) : Option Nat :=
  let r := moduleRank m
  if r = none ∧ m.suffix = "UI" then none else r

/-- Comparison of the `Infinity`-extended ranks: any finite rank is below
`Infinity`. -/
def rankLt : Option Nat → Option Nat → Bool
  | some i, some j => i < j
  | some _, none => true
  | none, _ => false

/-- The sort comparator: rank first, `localeCompare` of the names on equal
ranks; only its sign (`Ordering`) is observable to the sort. -/
def cmpModules (a b : Module) : Ordering :=
  if moduleSortRank a = moduleSortRank b then cmpCharList a.name.data b.name.data
  else if rankLt (moduleSortRank a) (moduleSortRank b) then .lt
  else .gt

/-- Comparator-nonpositive relation `cmpModules a b ≤ 0`; a stable JavaScript
`Array.prototype.sort` with a consistent comparator produces exactly the stable
sort by this relation. -/
def moduleLe (a b : Module) : Prop :=
  cmpModules a b ≠ Ordering.gt

instance : DecidableRel moduleLe := fun a b => by
  unfold moduleLe; infer_instance

/-- sortModulesByHierarchy: stable sort of the records by the comparator
(`Array.prototype.sort` is stable per ES2019; insertion sort realises the same
unique stable result). -/
def sortModulesByHierarchy (modules : List Module) : List Module :=
  modules.insertionSort moduleLe

/-! ### Scanner: `scanModules` orchestration

In the source, `scanModules` declares `let modules = []`, then inside `try`
runs login / navigation / filter application, assigns
`modules = await scrapeModulesWithWarnings(page)`, sorts, filters by the
requested layers and saves.  The `catch` block saves
`filterModulesByRequestedLayers(modules, requestedLayers)` — but only when
`modules.length > 0`, and the assignment to the outer `modules` has not yet
happened when the exception is raised inside the scraping loop, so in that case
`modules` is still `[]` and nothing is written.  The model returns the
persisted snapshot contents, `none` when no file is written. -/

/-- scanModules: the persisted `sorted-modules.json` contents for a scan run
described by `events` (`none` = no write happened). -/
def scanModules (requestedLayers : Option (List String))
    (events : List ScanEvent) : Option (List Module) :=
  match scrapeModulesWithWarnings events with
  | .ok mods =>
    some (filterModulesByRequestedLayers (sortModulesByHierarchy mods) requestedLayers)
  | .error _ => none

/-! ### Publisher: shared task queue (`taskQueue` / `taskIndex` / `getNextTask`)

`taskQueue` and `taskIndex` are module-level variables of the republisher
script: there is exactly one of each per process, shared by every
`processTab(subdomain, browser)` invocation of every subdomain.  `getNextTask`
runs synchronously on the event loop, so each call is one atomic claim. -/

/-- The global mutable state of the republisher: the task array and cursor. -/
structure PubState where
  taskQueue : List String
  taskIndex : Nat
deriving DecidableEq, Repr

/-- getNextTask(): return `taskQueue[taskIndex++]` while in range, else
`null`. -/
def getNextTask (s : PubState) : Option String × PubState :=
  if h : s.taskIndex < s.taskQueue.length then
    (some (s.taskQueue.get ⟨s.taskIndex, h⟩), ⟨s.taskQueue, s.taskIndex + 1⟩)
  else (none, s)

/-- A run of claim operations against the shared queue: the schedule lists, in
event-loop order, which worker performs each `getNextTask` call (a worker label
is e.g. a group/subdomain index).  Successful claims are recorded with their
claiming worker. -/
def runClaims {W : Type} : PubState → List W → List (W × String) × PubState
  | s, [] => ([], s)
  | s, w :: ws =>
    match getNextTask s with
    | (some t, s') =>
      let rest := runClaims s' ws
      ((w, t) :: rest.1, rest.2)
    | (none, s') => runClaims s' ws

/-! ### Publisher: retry loops -/

/-- The shared bounded-retry skeleton of `navigateWithRetries` and
`processPublishPage`: `while (retries < RETRY_LIMIT) { try … return; catch {
retries++; if (retries === RETRY_LIMIT) return failure; } }`.  `fuel` is
`RETRY_LIMIT - retries` and `attempts` counts attempts already performed, so
the attempt being tried is number `attempts + 1`; `act n` tells whether attempt
`n` succeeds.  Returns (succeeded, attempts performed). -/
def retryAttempts (act : Nat → Bool) : Nat → Nat → Bool × Nat
  | 0, attempts => (false, attempts)
  | fuel + 1, attempts =>
    if act (attempts + 1) then (true, attempts + 1)
    else if fuel = 0 then (false, attempts + 1)
    else retryAttempts act fuel (attempts + 1)

/-- navigateWithRetries(page, url): up to `RETRY_LIMIT` navigation attempts;
returns `true` on the first success, `false` after exhausting the limit. -/
def navigateWithRetries (act : Nat → Bool) : Bool × Nat :=
  retryAttempts act RETRY_LIMIT 0

/-- processPublishPage(page, url): the same retry skeleton around the
navigate-find-row-publish body; success (including the "no Publish button"
path) returns, and exhausting the limit logs and returns without throwing. -/
def processPublishPage (act : Nat → Bool) : Bool × Nat :=
  retryAttempts act RETRY_LIMIT 0

/-! ### Publisher: per-tab worker (`processTab`) -/

/-- URL rewrite in `processTab`:
`task.replace(/^https:\/\/[^.]+/, "https://" + subdomain)` — when the URL
starts with `https://` followed by at least one non-dot character, that prefix
(up to, not including, the first dot) is replaced by `https://` plus the
subdomain; otherwise the regex does not match and the URL is unchanged. -/
def httpsChars : List Char :=
  ['h', 't', 't', 'p', 's', ':', '/', '/']

/-- Core of the URL rewrite over character lists. -/
def rewriteUrlChars (sub task : List Char) : List Char :=
  if httpsChars.isPrefixOf task then
    let rest := task.drop httpsChars.length
    let seg := rest.takeWhile (fun c => c ≠ '.')
    if seg = [] then task
    else httpsChars ++ sub ++ rest.drop seg.length
  else task

/-- String-level wrapper of the `processTab` URL rewrite. -/
def rewriteUrl (sub task : String) : String :=
  ⟨rewriteUrlChars sub.data task.data⟩

/-- Host part of an `https://` URL (characters between `https://` and the
first `/`), used to compare against a group's endpoint host. -/
def urlHost (u : String) : String :=
  if httpsChars.isPrefixOf u.data then
    ⟨(u.data.drop httpsChars.length).takeWhile (fun c => c ≠ '/')⟩
  else ""

/-- Host of the Service Center a group logs into:
`` `https://${subdomain}.${BASE_DOMAIN}/ServiceCenter/` `` in `login`. -/
def groupEndpointHost (subdomain : String) : String :=
  subdomain ++ "." ++ BASE_DOMAIN

/-- Oracles describing how the vendor pages behave for one run: whether the
initial `page.goto` in `processTab` succeeds for a URL, whether
`isModuleInWarning` reports the warning state (it catches its own errors and
returns a boolean), and whether attempt `n` of the `processPublishPage` body
succeeds for a URL. -/
structure TabEnv where
  gotoOk : String → Bool
  warning : String → Bool
  publishAttempt : String → Nat → Bool

/-- Outcome recorded for one claimed item by the worker model. -/
inductive ItemOutcome where
  /-- `processPublishPage` body succeeded within the retry budget. -/
  | published
  /-- `isModuleInWarning` returned false: "does not need republishing". -/
  | skipped
  /-- `processPublishPage` exhausted `RETRY_LIMIT`: logged, non-fatal. -/
  | failed
  /-- the initial `page.goto` of the claimed item threw: the exception leaves
  the `while (true)` loop and is caught by the `catch` *outside* it, ending
  this worker. -/
  | navAborted
deriving DecidableEq, Repr

/-- The `while (true)` loop body of `processTab`, with explicit fuel (the loop
claims one task per iteration, so `taskQueue.length - taskIndex` steps always
suffice; the fuel encoding keeps the recursion structural).  Returns the
(task, outcome) log of this worker and the final shared-queue state. -/
def processTabGo (env : TabEnv) (subdomain : String) :
    Nat → PubState → List (String × ItemOutcome) × PubState
  | 0, s => ([], s)
  | fuel + 1, s =>
    match getNextTask s with
    | (none, s') => ([], s')
    | (some task, s') =>
      let url := rewriteUrl subdomain task
      if env.gotoOk url then
        let outcome :=
          if env.warning url then
            if (processPublishPage (env.publishAttempt url)).1 then
              ItemOutcome.published
            else ItemOutcome.failed
          else ItemOutcome.skipped
        let rest := processTabGo env subdomain fuel s'
        ((task, outcome) :: rest.1, rest.2)
      else ([(task, ItemOutcome.navAborted)], s')

/-- processTab(subdomain, browser) run alone to completion from state `s`. -/
def processTab (env : TabEnv) (subdomain : String) (s : PubState) :
    List (String × ItemOutcome) × PubState :=
  processTabGo env subdomain (s.taskQueue.length - s.taskIndex) s

/-! ## Work-queue lemmas -/

/-- Behaviour of a claim run from an arbitrary cursor: the successful claims
are the next `min (schedule length) (remaining)` tasks in input order, and the
cursor advances by exactly the number of successful claims. -/
theorem runClaims_spec {W : Type} :
    ∀ (ws : List W) (q : List String) (i : Nat), i ≤ q.length →
      (runClaims ⟨q, i⟩ ws).1.map Prod.snd = (q.drop i).take ws.length
      ∧ (runClaims ⟨q, i⟩ ws).2 = ⟨q, min (i + ws.length) q.length⟩ := by
  intro ws
  induction ws with
  | nil =>
    intro q i hi
    simp [runClaims, Nat.min_eq_left hi]
  | cons w ws ih =>
    intro q i hi
    by_cases h : i < q.length
    · have hstep : getNextTask ⟨q, i⟩ = (some (q.get ⟨i, h⟩), ⟨q, i + 1⟩) := by
        simp [getNextTask, h]
      have ihs := ih q (i + 1) h
      simp only [runClaims, hstep]
      refine ⟨?_, ?_⟩
      · simp only [List.map_cons, ihs.1, List.length_cons]
        rw [show List.drop i q = q[i] :: List.drop (i + 1) q from
          List.drop_eq_getElem_cons h, List.take_succ_cons]
        rfl
      · rw [ihs.2]
        have : i + 1 + ws.length = i + (ws.length + 1) := by omega
        simp [this]
    · have hie : i = q.length := Nat.le_antisymm hi (Nat.le_of_not_lt h)
      have hstep : getNextTask ⟨q, i⟩ = (none, ⟨q, i⟩) := by
        simp [getNextTask, h]
      have ihs := ih q i hi
      simp only [runClaims, hstep]
      refine ⟨?_, ?_⟩
      · rw [ihs.1, hie]
        simp
      · rw [ihs.2]
        congr 1
        omega

/-- Draining run: with at least as many claim calls as records, the claim
sequence is the whole queue in order and afterwards the queue reports empty. -/
theorem runClaims_drain (q : List String) {W : Type} (ws : List W)
    (hlen : q.length ≤ ws.length) :
    (runClaims ⟨q, 0⟩ ws).1.map Prod.snd = q
    ∧ (getNextTask (runClaims ⟨q, 0⟩ ws).2).1 = none := by
  obtain ⟨h1, h2⟩ := runClaims_spec ws q 0 (Nat.zero_le _)
  refine ⟨?_, ?_⟩
  · rw [h1]
    simpa using List.take_of_length_le hlen
  · rw [h2]
    have hmin : (0 + ws.length) ⊓ q.length = q.length := by omega
    rw [hmin]
    simp [getNextTask]

/-- C4: for a queue of `N` unique records and a schedule of at least `N` claim
calls by arbitrarily many workers, the successful claim sequence equals the
input order (so each record is claimed exactly once, none twice, none lost),
and every claim after the `N`-th returns "no more work". -/
theorem C4_queue_exactly_once (q : List String) {W : Type} (ws : List W)
    (hnd : q.Nodup) (hlen : q.length ≤ ws.length) :
    (runClaims ⟨q, 0⟩ ws).1.map Prod.snd = q
    ∧ ((runClaims ⟨q, 0⟩ ws).1.map Prod.snd).Nodup
    ∧ (getNextTask (runClaims ⟨q, 0⟩ ws).2).1 = none := by
  obtain ⟨h1, h2⟩ := runClaims_drain q ws hlen
  exact ⟨h1, by rw [h1]; exact hnd, h2⟩

/-- C4 witness: three workers drain a two-record queue. -/
theorem C4_queue_exactly_once_witness :
    (runClaims ⟨["a", "b"], 0⟩ [0, 1, 2]).1.map Prod.snd = ["a", "b"]
    ∧ ((runClaims ⟨["a", "b"], 0⟩ [0, 1, 2]).1.map Prod.snd).Nodup
    ∧ (getNextTask (runClaims ⟨["a", "b"], 0⟩ [0, 1, 2]).2).1 = none :=
  C4_queue_exactly_once ["a", "b"] [0, 1, 2] (by decide) (by decide)

/-- C1 (as stated, refuted): there is no per-group Work Queue — `taskQueue`
and `taskIndex` are process-global, so with two groups and a one-item
snapshot, one group dispatches the item and the other dispatches nothing
(schedule `[0, 1]`: the claim by group 0 succeeds, the claim by group 1 finds
the queue empty). -/
theorem C1_per_group_dispatch_counterexample :
    ¬ (∀ g ∈ [0, 1],
        ((runClaims ⟨["a"], 0⟩ [0, 1]).1.filter (fun p => p.1 == g)).length = 1) := by
  decide

/-- C1 (amended): all groups share the single global Work Queue, so across the
whole run each snapshot item is dispatched exactly once in total — to exactly
one group — rather than once per group. -/
theorem C1_shared_queue_total_dispatch (q : List String) {W : Type}
    [DecidableEq W] (ws : List W) (hnd : q.Nodup) (hlen : q.length ≤ ws.length) :
    ∀ t ∈ q, ((runClaims ⟨q, 0⟩ ws).1.filter (fun p => p.2 == t)).length = 1 := by
  intro t ht
  have hclaims := (runClaims_drain q ws hlen).1
  have hcount :
      ((runClaims ⟨q, 0⟩ ws).1.filter (fun p => p.2 == t)).length
        = List.countP (fun x => x == t) ((runClaims ⟨q, 0⟩ ws).1.map Prod.snd) := by
    rw [← List.countP_eq_length_filter, List.countP_map]
    rfl
  rw [hcount, hclaims]
  have : List.countP (fun x => x == t) q = List.count t q := rfl
  rw [this]
  exact List.count_eq_one_of_mem hnd ht

/-- C1 amended witness: a two-item queue drained by three workers dispatches
each item exactly once in total. -/
theorem C1_shared_queue_total_dispatch_witness :
    ((runClaims ⟨["a", "b"], 0⟩ [0, 1, 2]).1.filter (fun p => p.2 == "a")).length = 1 :=
  C1_shared_queue_total_dispatch ["a", "b"] [0, 1, 2] (by decide) (by decide)
    "a" (by decide)

/-! ## Retry-policy lemmas -/

/-- C6: with `RETRY_LIMIT = 3`, an action failing on attempts 1 and 2 and
succeeding on attempt 3 makes the wrapper return success having performed
exactly 3 attempts; an action failing on all 3 attempts yields a terminal
failure after exactly 3 attempts; and the wrapper never consults any attempt
beyond the third, so no 4th attempt is ever performed. -/
theorem C6_retry_policy (act : Nat → Bool) :
    (act 1 = false → act 2 = false → act 3 = true →
      navigateWithRetries act = (true, 3))
    ∧ (act 1 = false → act 2 = false → act 3 = false →
      navigateWithRetries act = (false, 3))
    ∧ (∀ act' : Nat → Bool, (∀ n, 1 ≤ n → n ≤ 3 → act n = act' n) →
      navigateWithRetries act = navigateWithRetries act') := by
  refine ⟨?_, ?_, ?_⟩
  · intro h1 h2 h3
    simp [navigateWithRetries, retryAttempts, RETRY_LIMIT, h1, h2, h3]
  · intro h1 h2 h3
    simp [navigateWithRetries, retryAttempts, RETRY_LIMIT, h1, h2, h3]
  · intro act' h
    have e1 := h 1 (by omega) (by omega)
    have e2 := h 2 (by omega) (by omega)
    have e3 := h 3 (by omega) (by omega)
    simp [navigateWithRetries, retryAttempts, RETRY_LIMIT, e1, e2, e3]

/-- C6 witness: an action succeeding only at attempt 3 returns success in
exactly 3 attempts; an always-failing action fails terminally in 3 attempts;
and changing behaviour from attempt 4 on does not change the wrapper. -/
theorem C6_retry_policy_witness :
    navigateWithRetries (fun n => n == 3) = (true, 3)
    ∧ navigateWithRetries (fun _ => false) = (false, 3)
    ∧ navigateWithRetries (fun _ => false)
        = navigateWithRetries (fun n => decide (4 ≤ n)) :=
  ⟨(C6_retry_policy (fun n => n == 3)).1 rfl rfl rfl,
    (C6_retry_policy (fun _ => false)).2.1 rfl rfl rfl,
    (C6_retry_policy (fun _ => false)).2.2 (fun n => decide (4 ≤ n))
      (by intro n h1 h2; simp; omega)⟩

/-! ## CLI layer-filter lemmas -/

/-- C8: in both scripts, the optional positional argument is matched
case-insensitively (after trimming) against the hierarchy; an absent argument
means no filtering; an empty argument yields no filtering; an argument all of
whose tokens are unrecognized yields the warning and no filtering; and a
recognized token filters to its canonical hierarchy spelling. -/
theorem C8_layer_argument_contract :
    parseRequestedLayers [] = ⟨none, false⟩
    ∧ (∀ rest : List String, parseRequestedLayers ("" :: rest) = ⟨none, true⟩)
    ∧ (∀ (arg : String) (rest : List String),
        (∀ tok ∈ splitOnChar ',' arg.data,
          layerMapLookup (upperChars (trimChars tok)) = none) →
        parseRequestedLayers (arg :: rest) = ⟨none, true⟩)
    ∧ (∀ (s : String) (rest : List String) (L : String),
        splitOnChar ',' s.data = [s.data] →
        layerMapLookup (upperChars (trimChars s.data)) = some L →
        parseRequestedLayers (s :: rest) = ⟨some [L], false⟩) := by
  refine ⟨rfl, fun rest => rfl, ?_, ?_⟩
  · intro arg rest h
    have hnil :
        ((splitOnChar ',' arg.data).map trimChars).filterMap
          (fun l => layerMapLookup (upperChars l)) = [] := by
      rw [List.filterMap_eq_nil_iff]
      intro a ha
      obtain ⟨tok, htok, rfl⟩ := List.mem_map.mp ha
      exact h tok htok
    simp [parseRequestedLayers, hnil]
  · intro s rest L h1 h2
    simp [parseRequestedLayers, h1, h2]

/-- C8 witness: no argument and the empty argument yield no filtering; a fully
invalid list yields warning plus no filtering; and a padded lowercase token is
recognized case-insensitively. -/
theorem C8_layer_argument_contract_witness :
    parseRequestedLayers [] = ⟨none, false⟩
    ∧ parseRequestedLayers [""] = ⟨none, true⟩
    ∧ parseRequestedLayers ["xx,yy"] = ⟨none, true⟩
    ∧ parseRequestedLayers [" os "] = ⟨some ["OS"], false⟩ :=
  ⟨C8_layer_argument_contract.1,
    C8_layer_argument_contract.2.1 [],
    C8_layer_argument_contract.2.2.1 "xx,yy" [] (by decide),
    C8_layer_argument_contract.2.2.2 " os " [] "OS" (by decide) (by decide)⟩

/-! ## Scanner exclusion and deduplication lemmas -/

/-- A record in the output of one accumulation step either was already
accumulated or is the row's record, built from a sandbox-free row. -/
theorem scrapeStep_mem (acc : List Module) (r : Row) :
    ∀ x ∈ scrapeStep acc r,
      x ∈ acc ∨ (sandboxName r.name = false ∧ x = moduleOfRow r) := by
  intro x hx
  unfold scrapeStep at hx
  by_cases hw : r.hasWarning = true
  · rw [if_pos hw] at hx
    by_cases hs : sandboxName r.name = true
    · rw [if_pos hs] at hx
      exact Or.inl hx
    · rw [if_neg hs] at hx
      by_cases ha : (acc.any fun m => m.url == r.url) = true
      · rw [if_pos ha] at hx
        exact Or.inl hx
      · rw [if_neg ha] at hx
        rcases List.mem_append.mp hx with h | h
        · exact Or.inl h
        · exact Or.inr ⟨by simpa using hs, by simpa using h⟩
  · rw [if_neg hw] at hx
    exact Or.inl hx

/-- Accumulated records never carry a sandbox name. -/
theorem scrapeRows_no_sandbox :
    ∀ (rows : List Row) (acc : List Module),
      (∀ m ∈ acc, sandboxName m.name = false) →
      ∀ m ∈ rows.foldl scrapeStep acc, sandboxName m.name = false := by
  intro rows
  induction rows with
  | nil => intro acc hacc m hm; exact hacc m hm
  | cons r rows ih =>
    intro acc hacc m hm
    refine ih (scrapeStep acc r) ?_ m hm
    intro x hx
    rcases scrapeStep_mem acc r x hx with h | ⟨hs, rfl⟩
    · exact hacc x h
    · simpa [moduleOfRow] using hs

/-- C9: a row whose module name contains "sandbox" in any letter case is
skipped by the accumulation step even when it carries the warning icon, and
consequently no accumulated record has a sandbox name — the warning predicate
alone does not guarantee inclusion. -/
theorem C9_sandbox_exclusion :
    (∀ (acc : List Module) (r : Row), r.hasWarning = true →
      sandboxName r.name = true → scrapeStep acc r = acc)
    ∧ (∀ rows : List Row, ∀ m ∈ scrapeRows rows, sandboxName m.name = false) := by
  constructor
  · intro acc r hw hs
    simp [scrapeStep, hw, hs]
  · intro rows m hm
    exact scrapeRows_no_sandbox rows [] (by intro m hm; cases hm) m hm

/-- C9 witness: a warning-flagged row named `My_SandboxThing_CS` is dropped,
and the record scraped from a warning-flagged non-sandbox row has a
sandbox-free name. -/
theorem C9_sandbox_exclusion_witness :
    scrapeStep [] ⟨true, "u", "My_SandboxThing_CS"⟩ = []
    ∧ sandboxName (Module.mk "a" "X_OS" "OS").name = false :=
  ⟨C9_sandbox_exclusion.1 [] ⟨true, "u", "My_SandboxThing_CS"⟩ rfl (by decide),
    C9_sandbox_exclusion.2 [⟨true, "a", "X_OS"⟩] ⟨"a", "X_OS", "OS"⟩ (by decide)⟩

/-! ## Partial-scan persistence -/

/-- C2 (refuted by the code, intent clear): when the accumulation loop throws
after having accumulated a record, `scrapeModulesWithWarnings` loses its local
`modules` map — the outer `modules` variable of `scanModules` was never
assigned, so the `catch` block's `modules.length > 0` guard fails and nothing
is persisted, despite the comment "Save whatever was scraped before the
error".  Concretely: one warning row then an exception; one record had been
accumulated, yet the persisted snapshot is `none`. -/
theorem C2_partial_scan_not_persisted :
    scrapeModulesWithWarnings [.row ⟨true, "u", "Name_CS"⟩, .failure]
      = .error [⟨"u", "Name_CS", "CS"⟩]
    ∧ scanModules none [.row ⟨true, "u", "Name_CS"⟩, .failure] = none :=
  ⟨rfl, rfl⟩

/-! ## Deduplication lemmas -/

/-- A row that is not captured (no warning icon, or sandbox name) leaves the
accumulator unchanged. -/
theorem scrapeStep_not_captured (acc : List Module) (r : Row)
    (h : rowCaptured r = false) : scrapeStep acc r = acc := by
  unfold rowCaptured at h
  cases hw : r.hasWarning with
  | false => simp [scrapeStep, hw]
  | true =>
    cases hsb : sandboxName r.name with
    | true => simp [scrapeStep, hw, hsb]
    | false => rw [hw, hsb] at h; simp at h

/-- Once a URL is present in the accumulator it stays present. -/
theorem scrapeStep_any_mono (u : String) (acc : List Module) (r : Row)
    (h : (acc.any fun m => m.url == u) = true) :
    ((scrapeStep acc r).any fun m => m.url == u) = true := by
  unfold scrapeStep
  split
  · split
    · exact h
    · split
      · exact h
      · simp [List.any_append, h]
  · exact h

/-- URLs absent from the accumulator stay absent when the processed row has a
different URL. -/
theorem scrapeStep_any_ne (u : String) (acc : List Module) (r : Row)
    (h : (acc.any fun m => m.url == u) = false) (hru : (r.url == u) = false) :
    ((scrapeStep acc r).any fun m => m.url == u) = false := by
  unfold scrapeStep
  split
  · split
    · exact h
    · split
      · exact h
      · simp [List.any_append, h, moduleOfRow, hru]
  · exact h

/-- Once a URL is in the accumulator, later rows add nothing with that URL:
the filtered output equals the filtered accumulator. -/
theorem scrape_filter_frozen (u : String) :
    ∀ (rows : List Row) (acc : List Module),
      (acc.any fun m => m.url == u) = true →
      (rows.foldl scrapeStep acc).filter (fun m => m.url == u)
        = acc.filter (fun m => m.url == u) := by
  intro rows
  induction rows with
  | nil => intro acc _; rfl
  | cons r rows ih =>
    intro acc h
    have hstep : (scrapeStep acc r).filter (fun m => m.url == u)
        = acc.filter (fun m => m.url == u) := by
      unfold scrapeStep
      split
      · split
        · rfl
        · split
          · rfl
          · rename_i hnotany
            have hru : ((moduleOfRow r).url == u) = false := by
              cases hb : ((moduleOfRow r).url == u) with
              | false => rfl
              | true =>
                have hequ : r.url = u := by simpa [moduleOfRow] using hb
                subst hequ
                exact absurd h hnotany
            simp [List.filter_append, hru]
      · rfl
    calc ((r :: rows).foldl scrapeStep acc).filter (fun m => m.url == u)
        = (rows.foldl scrapeStep (scrapeStep acc r)).filter (fun m => m.url == u) := rfl
      _ = (scrapeStep acc r).filter (fun m => m.url == u) :=
          ih _ (scrapeStep_any_mono u acc r h)
      _ = acc.filter (fun m => m.url == u) := hstep

/-- First-seen-wins: starting from an accumulator not containing URL `u`, the
records with URL `u` in the output are exactly the record of the first
captured row with that URL (or nothing if no such row exists). -/
theorem scrape_filter_first (u : String) :
    ∀ (rows : List Row) (acc : List Module),
      (acc.any fun m => m.url == u) = false →
      (rows.foldl scrapeStep acc).filter (fun m => m.url == u)
        = ((rows.filter (fun r => rowCaptured r && r.url == u)).map moduleOfRow).take 1 := by
  intro rows
  induction rows with
  | nil =>
    intro acc h
    simp only [List.foldl_nil, List.filter_nil, List.map_nil, List.take_nil]
    rw [List.filter_eq_nil_iff]
    exact List.any_eq_false.mp h
  | cons r rows ih =>
    intro acc h
    by_cases hcap : rowCaptured r = true
    · by_cases hru : (r.url == u) = true
      · have hu : r.url = u := by simpa using hru
        have hw : r.hasWarning = true := by
          unfold rowCaptured at hcap
          exact (Bool.and_eq_true _ _ |>.mp hcap).1
        have hs : sandboxName r.name = false := by
          unfold rowCaptured at hcap
          simpa using (Bool.and_eq_true _ _ |>.mp hcap).2
        have hnotany : (acc.any fun m => m.url == r.url) = false := by
          rw [hu]; exact h
        have hstep : scrapeStep acc r = acc ++ [moduleOfRow r] := by
          unfold scrapeStep
          rw [if_pos hw, if_neg (by simp [hs]), if_neg (by simp [hnotany])]
        have hany' : ((acc ++ [moduleOfRow r]).any fun m => m.url == u) = true := by
          simp [List.any_append, moduleOfRow, hru]
        calc ((r :: rows).foldl scrapeStep acc).filter (fun m => m.url == u)
            = (rows.foldl scrapeStep (acc ++ [moduleOfRow r])).filter
                (fun m => m.url == u) := by rw [List.foldl_cons, hstep]
          _ = (acc ++ [moduleOfRow r]).filter (fun m => m.url == u) :=
              scrape_filter_frozen u rows _ hany'
          _ = [moduleOfRow r] := by
              rw [List.filter_append]
              rw [show acc.filter (fun m => m.url == u) = [] from
                List.filter_eq_nil_iff.mpr (List.any_eq_false.mp h)]
              simp [moduleOfRow, hru]
          _ = ((((r :: rows).filter
                (fun r => rowCaptured r && r.url == u)).map moduleOfRow).take 1) := by
              rw [List.filter_cons]
              simp [hcap, hru]
      · have hruf : (r.url == u) = false := by simpa using hru
        have hany' := scrapeStep_any_ne u acc r h hruf
        calc ((r :: rows).foldl scrapeStep acc).filter (fun m => m.url == u)
            = (rows.foldl scrapeStep (scrapeStep acc r)).filter
                (fun m => m.url == u) := rfl
          _ = ((rows.filter (fun r => rowCaptured r && r.url == u)).map
                moduleOfRow).take 1 := ih _ hany'
          _ = ((((r :: rows).filter
                (fun r => rowCaptured r && r.url == u)).map moduleOfRow).take 1) := by
              rw [List.filter_cons]
              simp [hruf]
    · have hcapf : rowCaptured r = false := by simpa using hcap
      have hstep := scrapeStep_not_captured acc r hcapf
      calc ((r :: rows).foldl scrapeStep acc).filter (fun m => m.url == u)
          = (rows.foldl scrapeStep acc).filter (fun m => m.url == u) := by
            rw [List.foldl_cons, hstep]
        _ = ((rows.filter (fun r => rowCaptured r && r.url == u)).map
              moduleOfRow).take 1 := ih _ h
        _ = ((((r :: rows).filter
              (fun r => rowCaptured r && r.url == u)).map moduleOfRow).take 1) := by
            rw [List.filter_cons]
            simp [hcapf]

/-- The accumulated URLs are free of duplicates. -/
theorem scrape_nodup_urls :
    ∀ (rows : List Row) (acc : List Module),
      ((acc.map fun m => m.url).Nodup) →
      (((rows.foldl scrapeStep acc).map fun m => m.url).Nodup) := by
  intro rows
  induction rows with
  | nil => intro acc h; exact h
  | cons r rows ih =>
    intro acc h
    refine ih (scrapeStep acc r) ?_
    unfold scrapeStep
    split
    · split
      · exact h
      · split
        · exact h
        · rename_i hnotany
          rw [List.map_append, List.nodup_append]
          refine ⟨h, by simp, ?_⟩
          rw [show (([moduleOfRow r].map fun m => m.url)) = [r.url] from rfl]
          rw [List.disjoint_singleton]
          intro hmem
          obtain ⟨m, hm, hme⟩ := List.mem_map.mp hmem
          have hfalse : (acc.any fun m => m.url == r.url) = false := by
            simpa using hnotany
          exact List.any_eq_false.mp hfalse m hm (by simp [hme])
    · exact h

/-- C7: whenever the same URL is captured more than once during a scan
(possibly with different names), the accumulated list contains exactly one
record for it — the one built from the first captured row — so URLs are a
unique key of the accumulated list and of the persisted (sorted, filtered)
snapshot. -/
theorem C7_url_dedup_first_seen (rows : List Row) :
    ((scrapeRows rows).map fun m => m.url).Nodup
    ∧ (∀ u : String, (scrapeRows rows).filter (fun m => m.url == u)
        = ((rows.filter (fun r => rowCaptured r && r.url == u)).map moduleOfRow).take 1)
    ∧ (∀ requestedLayers,
        ((filterModulesByRequestedLayers (sortModulesByHierarchy (scrapeRows rows))
          requestedLayers).map fun m => m.url).Nodup) := by
  have hnd : ((scrapeRows rows).map fun m => m.url).Nodup :=
    scrape_nodup_urls rows [] (by simp)
  refine ⟨hnd, fun u => scrape_filter_first u rows [] (by simp), ?_⟩
  intro requestedLayers
  have hperm : (sortModulesByHierarchy (scrapeRows rows)).Perm (scrapeRows rows) :=
    List.perm_insertionSort _ _
  have hsortnd : ((sortModulesByHierarchy (scrapeRows rows)).map fun m => m.url).Nodup :=
    ((hperm.map (fun m : Module => m.url)).nodup_iff).mpr hnd
  cases requestedLayers with
  | none => exact hsortnd
  | some layers =>
    exact (List.Sublist.map (fun m : Module => m.url) (List.filter_sublist _)).nodup hsortnd

/-! ## Worker-loop lemmas -/

/-- The per-item outcome `processTab` records, as a function of the oracles. -/
def expectedOutcome (env : TabEnv) (sub : String) (task : String) : ItemOutcome :=
  if env.warning (rewriteUrl sub task) then
    if (processPublishPage (env.publishAttempt (rewriteUrl sub task))).1 then
      ItemOutcome.published
    else ItemOutcome.failed
  else ItemOutcome.skipped

/-- When every initial navigation succeeds, a worker drains the whole
remaining queue, records one non-aborting outcome per item in claim order, and
leaves the cursor at the end. -/
theorem processTabGo_nav_ok (env : TabEnv) (sub : String)
    (hgoto : ∀ u, env.gotoOk u = true) :
    ∀ (fuel : Nat) (q : List String) (i : Nat), i ≤ q.length →
      q.length - i ≤ fuel →
      (processTabGo env sub fuel ⟨q, i⟩).1.map Prod.fst = q.drop i
      ∧ (processTabGo env sub fuel ⟨q, i⟩).2 = ⟨q, q.length⟩
      ∧ ∀ p ∈ (processTabGo env sub fuel ⟨q, i⟩).1,
          p.2 = expectedOutcome env sub p.1 := by
  intro fuel
  induction fuel with
  | zero =>
    intro q i hle hrem
    have hi : i = q.length := by omega
    subst hi
    refine ⟨by simp [processTabGo], by simp [processTabGo], ?_⟩
    intro p hp
    simp [processTabGo] at hp
  | succ fuel ih =>
    intro q i hle hrem
    by_cases h : i < q.length
    · have hstep : getNextTask ⟨q, i⟩ = (some (q.get ⟨i, h⟩), ⟨q, i + 1⟩) := by
        simp [getNextTask, h]
      have ihs := ih q (i + 1) h (by omega)
      have hok : env.gotoOk (rewriteUrl sub (q.get ⟨i, h⟩)) = true := hgoto _
      refine ⟨?_, ?_, ?_⟩
      · simp only [processTabGo, hstep, hok, if_true, List.map_cons, ihs.1]
        rw [List.drop_eq_getElem_cons h]
        rfl
      · simp only [processTabGo, hstep, hok, if_true]
        exact ihs.2.1
      · intro p hp
        simp only [processTabGo, hstep, hok, if_true, List.mem_cons] at hp
        rcases hp with hp | hp
        · subst hp
          rfl
        · exact ihs.2.2 p hp
    · have hi : i = q.length := by omega
      subst hi
      have hstep : getNextTask ⟨q, q.length⟩ = (none, ⟨q, q.length⟩) := by
        simp [getNextTask]
      refine ⟨?_, ?_, ?_⟩
      · simp [processTabGo, hstep]
      · simp [processTabGo, hstep]
      · intro p hp
        simp [processTabGo, hstep] at hp

/-- C3 (as stated, refuted): the initial `page.goto` of a claimed item is not
under any retry loop, and its exception is caught *outside* the worker's
`while (true)` — with two queued items and navigation failing, the worker logs
the first item as aborted and never claims the second: the item-level failure
ends the worker instead of degrading to a per-item "failed" outcome. -/
theorem C3_item_failure_aborts_worker_counterexample :
    (processTab ⟨fun _ => false, fun _ => true, fun _ _ => true⟩ "dev"
        ⟨["u1", "u2"], 0⟩).1 = [("u1", ItemOutcome.navAborted)]
    ∧ (processTab ⟨fun _ => false, fun _ => true, fun _ _ => true⟩ "dev"
        ⟨["u1", "u2"], 0⟩).2.taskIndex = 1
    ∧ ¬ (processTab ⟨fun _ => false, fun _ => true, fun _ _ => true⟩ "dev"
        ⟨["u1", "u2"], 0⟩).2.taskIndex = 2 := by
  refine ⟨rfl, rfl, by decide⟩

/-- C3 (amended): timeouts inside the publish-page procedure are governed by
the Retry Policy and exhaustion degrades to a non-fatal per-item `failed`
outcome, after which the worker claims the next item — provided the *initial*
navigation of each claimed item succeeds; that initial navigation itself is
not retried, and its failure aborts the worker (the queue and sibling workers
are unaffected). -/
theorem C3_retry_nonfatal_when_nav_ok (env : TabEnv) (sub : String)
    (q : List String) (hgoto : ∀ u, env.gotoOk u = true) :
    (processTab env sub ⟨q, 0⟩).1.map Prod.fst = q
    ∧ (∀ p ∈ (processTab env sub ⟨q, 0⟩).1, p.2 ≠ ItemOutcome.navAborted)
    ∧ (∀ p ∈ (processTab env sub ⟨q, 0⟩).1,
        env.warning (rewriteUrl sub p.1) = true →
        (processPublishPage (env.publishAttempt (rewriteUrl sub p.1))).1 = false →
        p.2 = ItemOutcome.failed)
    ∧ (getNextTask (processTab env sub ⟨q, 0⟩).2).1 = none := by
  obtain ⟨h1, h2, h3⟩ :=
    processTabGo_nav_ok env sub hgoto (q.length - 0) q 0 (Nat.zero_le _) (Nat.le_refl _)
  refine ⟨by simpa using h1, ?_, ?_, ?_⟩
  · intro p hp
    rw [h3 p hp]
    unfold expectedOutcome
    split
    · split
      · exact fun hc => ItemOutcome.noConfusion hc
      · exact fun hc => ItemOutcome.noConfusion hc
    · exact fun hc => ItemOutcome.noConfusion hc
  · intro p hp hw hpub
    rw [h3 p hp]
    unfold expectedOutcome
    rw [if_pos hw, if_neg (by simp [hpub])]
  · have h2' : (processTab env sub ⟨q, 0⟩).2 = ⟨q, q.length⟩ := h2
    rw [h2']
    simp [getNextTask]

/-- C3 amended witness: with successful initial navigations, warnings
everywhere and a publish body that always times out, both items end `failed`
and the worker drains the queue. -/
theorem C3_retry_nonfatal_when_nav_ok_witness :
    (processTab ⟨fun _ => true, fun _ => true, fun _ _ => false⟩ "dev"
        ⟨["u1", "u2"], 0⟩).1.map Prod.fst = ["u1", "u2"]
    ∧ (∀ p ∈ (processTab ⟨fun _ => true, fun _ => true, fun _ _ => false⟩ "dev"
        ⟨["u1", "u2"], 0⟩).1, p.2 ≠ ItemOutcome.navAborted)
    ∧ (getNextTask (processTab ⟨fun _ => true, fun _ => true, fun _ _ => false⟩ "dev"
        ⟨["u1", "u2"], 0⟩).2).1 = none := by
  obtain ⟨h1, h2, _, h4⟩ :=
    C3_retry_nonfatal_when_nav_ok ⟨fun _ => true, fun _ => true, fun _ _ => false⟩
      "dev" ["u1", "u2"] (fun _ => rfl)
  exact ⟨h1, h2, h4⟩

/-! ## Sort-order lemmas -/

theorem cmpCharList_self : ∀ x : List Char, cmpCharList x x = .eq := by
  intro x
  induction x with
  | nil => rfl
  | cons a as ih => simp [cmpCharList, ih]

theorem cmpCharList_swap :
    ∀ x y : List Char, cmpCharList y x = (cmpCharList x y).swap := by
  intro x
  induction x with
  | nil => intro y; cases y <;> rfl
  | cons a as ih =>
    intro y
    cases y with
    | nil => rfl
    | cons b bs =>
      simp only [cmpCharList]
      rcases Nat.lt_trichotomy a.toNat b.toNat with h | h | h
      · rw [if_neg (show ¬ b.toNat < a.toNat by omega), if_pos h, if_pos h]
        rfl
      · rw [if_neg (by omega : ¬ b.toNat < a.toNat),
          if_neg (by omega : ¬ a.toNat < b.toNat),
          if_neg (by omega : ¬ a.toNat < b.toNat),
          if_neg (by omega : ¬ b.toNat < a.toNat)]
        exact ih bs
      · rw [if_pos h, if_neg (show ¬ a.toNat < b.toNat by omega), if_pos h]
        rfl

theorem cmpCharList_le_trans :
    ∀ x y z : List Char, cmpCharList x y ≠ .gt → cmpCharList y z ≠ .gt →
      cmpCharList x z ≠ .gt := by
  intro x
  induction x with
  | nil =>
    intro y z _ _
    cases z <;> simp [cmpCharList]
  | cons a as ih =>
    intro y z h1 h2
    cases y with
    | nil => simp [cmpCharList] at h1
    | cons b bs =>
      cases z with
      | nil => simp [cmpCharList] at h2
      | cons c cs =>
        simp only [cmpCharList] at h1 h2 ⊢
        by_cases hab : a.toNat < b.toNat
        · rw [if_pos hab] at h1
          by_cases hbc : b.toNat < c.toNat
          · rw [if_pos (show a.toNat < c.toNat by omega)]
            simp
          · rw [if_neg hbc] at h2
            by_cases hcb : c.toNat < b.toNat
            · rw [if_pos hcb] at h2
              simp at h2
            · rw [if_pos (show a.toNat < c.toNat by omega)]
              simp
        · rw [if_neg hab] at h1
          by_cases hba : b.toNat < a.toNat
          · rw [if_pos hba] at h1
            simp at h1
          · rw [if_neg hba] at h1
            by_cases hbc : b.toNat < c.toNat
            · rw [if_pos (show a.toNat < c.toNat by omega)]
              simp
            · rw [if_neg hbc] at h2
              by_cases hcb : c.toNat < b.toNat
              · rw [if_pos hcb] at h2
                simp at h2
              · rw [if_neg hcb] at h2
                rw [if_neg (show ¬ a.toNat < c.toNat by omega),
                  if_neg (show ¬ c.toNat < a.toNat by omega)]
                exact ih bs cs h1 h2

theorem rankLt_irrefl : ∀ r : Option Nat, rankLt r r = false := by
  intro r
  cases r <;> simp [rankLt]

theorem rankLt_conn :
    ∀ r s : Option Nat, r ≠ s → rankLt r s = false → rankLt s r = true := by
  intro r s hne h
  cases r with
  | none =>
    cases s with
    | none => exact absurd rfl hne
    | some j => rfl
  | some i =>
    cases s with
    | none => simp [rankLt] at h
    | some j =>
      simp only [rankLt, decide_eq_true_eq, decide_eq_false_iff_not] at h ⊢
      have : i ≠ j := by
        intro he
        exact hne (by rw [he])
      omega

theorem rankLt_trans :
    ∀ r s t : Option Nat, rankLt r s = true → rankLt s t = true →
      rankLt r t = true := by
  intro r s t h1 h2
  cases r with
  | none => simp [rankLt] at h1
  | some i =>
    cases s with
    | none => simp [rankLt] at h2
    | some j =>
      cases t with
      | none => rfl
      | some k =>
        simp only [rankLt, decide_eq_true_eq] at h1 h2 ⊢
        omega

theorem moduleLe_total : ∀ a b : Module, moduleLe a b ∨ moduleLe b a := by
  intro a b
  unfold moduleLe cmpModules
  by_cases hr : moduleSortRank a = moduleSortRank b
  · rw [if_pos hr, if_pos hr.symm]
    cases hc : cmpCharList a.name.data b.name.data with
    | gt =>
      right
      rw [cmpCharList_swap b.name.data a.name.data] at hc
      cases hcb : cmpCharList b.name.data a.name.data <;>
        rw [hcb] at hc <;> simp [Ordering.swap] at hc ⊢
    | lt => left; simp [hc]
    | eq => left; simp [hc]
  · rw [if_neg hr, if_neg (Ne.symm hr)]
    by_cases hlt : rankLt (moduleSortRank a) (moduleSortRank b) = true
    · rw [if_pos hlt]
      left
      simp
    · have hba := rankLt_conn _ _ hr (by simpa using hlt)
      rw [if_neg hlt, if_pos hba]
      right
      simp

theorem moduleLe_trans :
    ∀ a b c : Module, moduleLe a b → moduleLe b c → moduleLe a c := by
  intro a b c h1 h2
  unfold moduleLe cmpModules at h1 h2 ⊢
  by_cases hab : moduleSortRank a = moduleSortRank b
  · rw [if_pos hab] at h1
    by_cases hbc : moduleSortRank b = moduleSortRank c
    · rw [if_pos hbc] at h2
      rw [if_pos (hab.trans hbc)]
      exact cmpCharList_le_trans _ _ _ h1 h2
    · rw [if_neg hbc] at h2
      have hac : moduleSortRank a ≠ moduleSortRank c := fun he =>
        hbc (hab.symm.trans he)
      rw [if_neg hac]
      by_cases hlt : rankLt (moduleSortRank b) (moduleSortRank c) = true
      · rw [if_pos (hab ▸ hlt)]
        simp
      · rw [if_neg hlt] at h2
        simp at h2
  · rw [if_neg hab] at h1
    by_cases hltab : rankLt (moduleSortRank a) (moduleSortRank b) = true
    · by_cases hbc : moduleSortRank b = moduleSortRank c
      · have hac : moduleSortRank a ≠ moduleSortRank c := fun he =>
          hab (he.trans hbc.symm)
        rw [if_neg hac, if_pos (hbc ▸ hltab)]
        simp
      · rw [if_neg hbc] at h2
        by_cases hltbc : rankLt (moduleSortRank b) (moduleSortRank c) = true
        · have hltac := rankLt_trans _ _ _ hltab hltbc
          have hac : moduleSortRank a ≠ moduleSortRank c := by
            intro he
            rw [he, rankLt_irrefl] at hltac
            simp at hltac
          rw [if_neg hac, if_pos hltac]
          simp
        · rw [if_neg hltbc] at h2
          simp at h2
    · rw [if_neg hltab] at h1
      simp at h1

instance : IsTotal Module moduleLe :=
  ⟨moduleLe_total⟩

instance : IsTrans Module moduleLe :=
  ⟨moduleLe_trans⟩

/-- Comparator-tied records (equal rank, equal name compare) are mutually
`moduleLe`; inserting before them keeps first-come-first-out order. -/
theorem filter_orderedInsert_pos (p : Module → Bool) (a : Module)
    (ha : p a = true) (hkey : ∀ b, p b = true → moduleLe a b) :
    ∀ l : List Module,
      (List.orderedInsert moduleLe a l).filter p = a :: l.filter p := by
  intro l
  induction l with
  | nil => simp [List.orderedInsert, ha]
  | cons b l ih =>
    simp only [List.orderedInsert]
    by_cases hle : moduleLe a b
    · rw [if_pos hle]
      simp [List.filter_cons, ha]
    · have hpb : p b = false := by
        cases hpb : p b with
        | false => rfl
        | true => exact absurd (hkey b hpb) hle
      rw [if_neg hle, List.filter_cons, if_neg (by simp [hpb]), ih,
        List.filter_cons, if_neg (by simp [hpb])]

/-- Inserting a record the filter rejects leaves the filtered list unchanged. -/
theorem filter_orderedInsert_neg (p : Module → Bool) (a : Module)
    (ha : p a = false) :
    ∀ l : List Module,
      (List.orderedInsert moduleLe a l).filter p = l.filter p := by
  intro l
  induction l with
  | nil => simp [List.orderedInsert, ha]
  | cons b l ih =>
    simp only [List.orderedInsert]
    by_cases hle : moduleLe a b
    · rw [if_pos hle]
      simp [List.filter_cons, ha]
    · rw [if_neg hle, List.filter_cons, List.filter_cons, ih]

/-- Stability of the insertion sort: filtering an equivalence class of the
comparator commutes with sorting, i.e. tied records keep their input order. -/
theorem filter_insertionSort (p : Module → Bool)
    (hkey : ∀ a b, p a = true → p b = true → moduleLe a b) :
    ∀ l : List Module,
      (List.insertionSort moduleLe l).filter p = l.filter p := by
  intro l
  induction l with
  | nil => rfl
  | cons x l ih =>
    simp only [List.insertionSort]
    cases hp : p x with
    | true =>
      rw [filter_orderedInsert_pos p x hp (fun b hb => hkey x b hp hb), ih,
        List.filter_cons, if_pos (by simp [hp])]
    | false =>
      rw [filter_orderedInsert_neg p x hp, ih, List.filter_cons,
        if_neg (by simp [hp])]

/-- The ordering the spec asserts of consecutive snapshot records: strictly
smaller rank, or equal rank and name not lexically greater. -/
def moduleOrdered (a b : Module) : Prop :=
  rankLt (moduleSortRank a) (moduleSortRank b) = true
  ∨ (moduleSortRank a = moduleSortRank b
      ∧ cmpCharList a.name.data b.name.data ≠ .gt)

theorem moduleLe_imp_ordered {a b : Module} (h : moduleLe a b) :
    moduleOrdered a b := by
  unfold moduleLe cmpModules at h
  by_cases hr : moduleSortRank a = moduleSortRank b
  · rw [if_pos hr] at h
    exact Or.inr ⟨hr, h⟩
  · by_cases hlt : rankLt (moduleSortRank a) (moduleSortRank b) = true
    · exact Or.inl hlt
    · rw [if_neg hr, if_neg hlt] at h
      simp at h

theorem moduleOrdered_none {a b : Module} (h : moduleOrdered a b)
    (ha : moduleSortRank a = none) : moduleSortRank b = none := by
  rcases h with h | ⟨he, _⟩
  · rw [ha] at h
    simp [rankLt] at h
  · rw [← he, ha]

/-- C5: `sortModulesByHierarchy` is a stable total sort — the output is a
permutation of the input, consecutive records are ordered by category rank
with equal ranks ordered by the (code-point lexicographic model of the) name
comparison, records tied on both rank and name keep their input order, and
every record of unrecognized category (`Infinity` rank) comes after all
recognized ones. -/
theorem C5_sort_stable_total (l : List Module) :
    (sortModulesByHierarchy l).Perm l
    ∧ (sortModulesByHierarchy l).Pairwise moduleOrdered
    ∧ (∀ (r : Option Nat) (n : String),
        (sortModulesByHierarchy l).filter
            (fun m => moduleSortRank m == r && m.name == n)
          = l.filter (fun m => moduleSortRank m == r && m.name == n))
    ∧ (sortModulesByHierarchy l).Pairwise
        (fun a b => moduleSortRank a = none → moduleSortRank b = none) := by
  have hsorted : (sortModulesByHierarchy l).Pairwise moduleLe :=
    List.sorted_insertionSort moduleLe l
  have hord : (sortModulesByHierarchy l).Pairwise moduleOrdered :=
    hsorted.imp (fun h => moduleLe_imp_ordered h)
  refine ⟨List.perm_insertionSort _ _, hord, ?_, ?_⟩
  · intro r n
    refine filter_insertionSort _ ?_ l
    intro a b hpa hpb
    have hpa' := Bool.and_eq_true _ _ |>.mp hpa
    have hpb' := Bool.and_eq_true _ _ |>.mp hpb
    have h1 : moduleSortRank a = r := by simpa using hpa'.1
    have h2 : a.name = n := by simpa using hpa'.2
    have h3 : moduleSortRank b = r := by simpa using hpb'.1
    have h4 : b.name = n := by simpa using hpb'.2
    unfold moduleLe cmpModules
    rw [if_pos (h1.trans h3.symm), show a.name = b.name from h2.trans h4.symm,
      cmpCharList_self]
    simp
  · exact hord.imp (fun h ha => moduleOrdered_none h ha)

/-! ## URL-rewrite lemmas -/

theorem takeWhile_no_dot (l r : List Char) (h : ∀ c ∈ l, c ≠ '.') :
    (l ++ '.' :: r).takeWhile (fun c => c ≠ '.') = l := by
  induction l with
  | nil => simp [List.takeWhile_cons]
  | cons a l ih =>
    have ha : a ≠ '.' := h a (List.mem_cons_self a l)
    rw [List.cons_append, List.takeWhile_cons, if_pos (by simpa using ha),
      ih (fun c hc => h c (List.mem_cons_of_mem a hc))]

/-- C10 (as stated, refuted): the rewrite only replaces the first host label,
keeping everything from the first dot onward — so for a snapshot URL on a
foreign domain the visited host is *not* the claiming group's endpoint host,
and a non-`https` URL is not rewritten at all.  The conclusion "the page
visited is always on the claiming group's endpoint host, regardless of the
host stored in the snapshot record" fails. -/
theorem C10_rewrite_host_counterexample :
    rewriteUrl "devsc" "https://a.evil.com/p" = "https://devsc.evil.com/p"
    ∧ urlHost (rewriteUrl "devsc" "https://a.evil.com/p")
        ≠ groupEndpointHost "devsc"
    ∧ rewriteUrl "devsc" "http://envsc.wodify.com/p"
        = "http://envsc.wodify.com/p" := by
  refine ⟨by decide, by decide, by decide⟩

/-- C10 (amended): when (and only in the shape where) the stored URL starts
with `https://` followed by a non-empty dot-free first label, the worker
replaces that label with its own subdomain and preserves the rest of the URL;
a URL not starting `https://<label>` is left unchanged.  The visited host is
the group's endpoint host exactly when the stored host was already under the
same base domain. -/
theorem C10_url_rewrite (sub label rest : List Char)
    (h1 : label ≠ []) (h2 : ∀ c ∈ label, c ≠ '.') :
    rewriteUrlChars sub (httpsChars ++ (label ++ '.' :: rest))
      = httpsChars ++ sub ++ '.' :: rest
    ∧ (∀ task : List Char, httpsChars.isPrefixOf task = false →
        rewriteUrlChars sub task = task) := by
  constructor
  · have hpre : httpsChars.isPrefixOf (httpsChars ++ (label ++ '.' :: rest)) = true :=
      List.isPrefixOf_iff_prefix.mpr (List.prefix_append _ _)
    simp only [rewriteUrlChars, hpre, if_true, List.drop_left,
      takeWhile_no_dot label rest h2]
    rw [if_neg h1]
  · intro task h
    simp [rewriteUrlChars, h]

/-- C10 amended witness: rewriting `https://a.evil.com/p` for subdomain
`devsc` yields `https://devsc.evil.com/p`, and a non-`https` URL is left
alone. -/
theorem C10_url_rewrite_witness :
    rewriteUrlChars "devsc".data (httpsChars ++ (['a'] ++ '.' :: "evil.com/p".data))
      = httpsChars ++ "devsc".data ++ '.' :: "evil.com/p".data
    ∧ rewriteUrlChars "devsc".data "http://x.wodify.com/p".data
      = "http://x.wodify.com/p".data :=
  ⟨(C10_url_rewrite "devsc".data ['a'] "evil.com/p".data (by decide) (by decide)).1,
    (C10_url_rewrite "devsc".data ['a'] "evil.com/p".data (by decide) (by decide)).2
      "http://x.wodify.com/p".data (by decide)⟩

end Republisher
